import Mathlib

/-!
# AirMasterBridge: verification of the device session and liveness engine

Shallow embedding of `src/am7p-bridge/am7p_bridge.py`.

Conventions of the embedding:
* raw datagrams are `List ℕ` (each element a byte value);
* Python floats (timestamps from `time.time()`, scaled measurement fields)
  are modelled as exact rationals `ℚ`;
* Python `int(x)` on a float truncates toward zero, modelled by `truncToZero`;
* Python dict `last_packet_ts` is modelled as `String → Option ℚ`
  (`dict.get(name, 0.0)` becomes `(lastTs name).getD 0`);
* the `known_names` set is a duplicate-free `List String`;
* MQTT publications are collected into lists of `Pub` / `Action` values,
  in the order the code issues them.
-/

namespace AirMaster

/-- The decoded measurement record produced by `parse_packet`
(`am7p_bridge.py` lines 145–153).  `pm25`, `pm10`, `co2` stay raw wire
integers; the other four fields are scaled, hence rational. -/
structure Measurement where
  pm25 : ℕ
  pm10 : ℕ
  hcho : ℚ
  tvoc : ℚ
  co2 : ℕ
  temperature : ℚ
  humidity : ℚ
deriving DecidableEq, Repr

/-- Big-endian unsigned 16-bit read at byte offset `off`, as done by
`struct.unpack_from(">HHHHHHH", data[23:])` field by field.  Out-of-range
reads default to 0, but `parse_packet` only reads inside the buffer thanks to
its length guard. -/
def u16be (data : List ℕ) (off : ℕ) : ℕ :=
  256 * data.getD off 0 + data.getD (off + 1) 0

/-- `parse_packet` (`am7p_bridge.py` lines 140–153): reject buffers shorter
than 23 + 14 bytes, otherwise read seven big-endian u16 values starting at
offset 23 and apply the fixed scale/offset transforms. -/
def parse_packet (data : List ℕ) : Option Measurement :=
  if data.length < 23 + 14 then
    none
  else
    some
      { pm25 := u16be data 23
        pm10 := u16be data 25
        hcho := (u16be data 27 : ℚ) / 100
        tvoc := (u16be data 29 : ℚ) / 100
        co2 := u16be data 31
        temperature := ((u16be data 33 : ℚ) - 3500) / 100
        humidity := (u16be data 35 : ℚ) / 100 }

/-- Python `int(q)` on a float: truncation toward zero. -/
def truncToZero (q : ℚ) : ℤ :=
  if q < 0 then -(⌊-q⌋) else ⌊q⌋

/-- The age computation shared by the periodic sweep (line 205–206) and the
shutdown block (lines 220–221):
`ts = last_packet_ts.get(name, 0.0); age = int(now - ts) if ts else 999999`. -/
def ageOf (lastSeenAt : Option ℚ) (now : ℚ) : ℤ :=
  let ts := lastSeenAt.getD 0
  if ts ≠ 0 then truncToZero (now - ts) else 999999

/-- The liveness evaluation of the sweep (`am7p_bridge.py` lines 205–207):
the age as above, and
`online = (ts != 0.0) and (age <= online_timeout_s)`. -/
def evaluate (lastSeenAt : Option ℚ) (now : ℚ) (onlineTimeoutSeconds : ℤ) :
    ℤ × Bool :=
  let ts := lastSeenAt.getD 0
  let age := ageOf lastSeenAt now
  (age, decide (ts ≠ 0) && decide (age ≤ onlineTimeoutSeconds))

/-- `get_name_by_ip` (`am7p_bridge.py` lines 71–72): look the source address
up in the static table, falling back to the default name `"am7p"`. -/
def get_name_by_ip (ip : String) (addr_to_name : List (String × String)) :
    String :=
  (addr_to_name.lookup ip).getD "am7p"

/-- The bridge loop's mutable state (`am7p_bridge.py` lines 173–176):
the set of announced device names, the per-name last-packet timestamp
dictionary, and the scheduled time of the next liveness sweep. -/
structure BridgeState where
  known_names : List String
  last_packet_ts : String → Option ℚ
  next_meta_ts : ℚ

/-- A publication on the message bus, in the order issued by the code.
`publish_discovery` is collapsed into one `discovery` event and
`publish_meta` (which writes the age topic and the online topic together)
into one `meta` event. -/
inductive Pub where
  | discovery (name : String)
  | state (name : String) (m : Measurement)
  | meta (name : String) (age : ℤ) (online : Bool)
deriving DecidableEq, Repr

/-- The registry update of the packet branch (`am7p_bridge.py` lines
190–195): report whether the name is new, add it to `known_names` if so, and
set its last-seen timestamp to the current time. -/
def recordPacket (st : BridgeState) (name : String) (now : ℚ) :
    Bool × BridgeState :=
  (decide (name ∉ st.known_names),
   { st with
     known_names :=
       if name ∈ st.known_names then st.known_names else name :: st.known_names
     last_packet_ts := fun n =>
       if n = name then some now else st.last_packet_ts n })

/-- The ingest step for one received datagram (`am7p_bridge.py` lines
184–195): resolve the name, parse; on rejection do nothing, on success
record the packet, publishing discovery first when the name is new, then the
measurement on the state topic. -/
def ingest (addr_to_name : List (String × String)) (st : BridgeState)
    (data : List ℕ) (ip : String) (now : ℚ) : BridgeState × List Pub :=
  let name := get_name_by_ip ip addr_to_name
  match parse_packet data with
  | none => (st, [])
  | some payload =>
    let r := recordPacket st name now
    (r.2, (if r.1 then [Pub.discovery name] else []) ++ [Pub.state name payload])

/-- One device's liveness publication during a sweep
(`am7p_bridge.py` lines 205–208). -/
def meta_for (last_packet_ts : String → Option ℚ) (timeout : ℤ) (now : ℚ)
    (name : String) : Pub :=
  let e := evaluate (last_packet_ts name) now timeout
  Pub.meta name e.1 e.2

/-- The periodic liveness sweep body (`am7p_bridge.py` lines 204–208):
publish age and online flag for every known name. -/
def sweep (st : BridgeState) (timeout : ℤ) (now : ℚ) : List Pub :=
  st.known_names.map (meta_for st.last_packet_ts timeout now)

/-- What one loop iteration observes on the socket: a datagram with its
source address, or a receive timeout. -/
inductive NetEvent where
  | recv (data : List ℕ) (ip : String)
  | timeout
deriving DecidableEq, Repr

/-- One loop iteration's input: the time read at the top of the iteration
(`now = time.time()`, line 180) and the socket outcome. -/
structure Tick where
  now : ℚ
  ev : NetEvent

/-- One iteration of the steady-state loop (`am7p_bridge.py` lines 179–208):
ingest (or nothing on timeout), then, if the sweep is due, reschedule it and
publish liveness for every known device. -/
def step (addr_to_name : List (String × String)) (meta_every : ℚ)
    (timeout : ℤ) (st : BridgeState) (tk : Tick) : BridgeState × List Pub :=
  let r :=
    match tk.ev with
    | .recv data ip => ingest addr_to_name st data ip tk.now
    | .timeout => (st, [])
  if st.next_meta_ts ≤ tk.now then
    ({ r.1 with next_meta_ts := tk.now + meta_every },
     r.2 ++ sweep r.1 timeout tk.now)
  else
    r

/-- Run the steady-state loop over a finite list of iterations, collecting
all publications in order. -/
def run (addr_to_name : List (String × String)) (meta_every : ℚ)
    (timeout : ℤ) (st : BridgeState) : List Tick → BridgeState × List Pub
  | [] => (st, [])
  | tk :: tks =>
    let r := step addr_to_name meta_every timeout st tk
    let rest := run addr_to_name meta_every timeout r.1 tks
    (rest.1, r.2 ++ rest.2)

/-- The state just before the loop starts (`am7p_bridge.py` lines 173–176):
no known names, empty timestamp dictionary, first sweep scheduled one
interval after start. -/
def initState (t0 : ℚ) (meta_every : ℚ) : BridgeState :=
  { known_names := []
    last_packet_ts := fun _ => none
    next_meta_ts := t0 + meta_every }

/-- An observable effect of the shutdown block: a bus publication, closing
the UDP socket, or stopping the MQTT client loop. -/
inductive Action where
  | pub (p : Pub)
  | closeSocket
  | stopBus
deriving DecidableEq, Repr

/-- The shutdown sequence (`am7p_bridge.py` lines 215–234): publish a final
liveness message with `online = False` for every known device (the age still
derived from the last-seen timestamp), then close the socket, then stop the
bus client. -/
def shutdown (st : BridgeState) (now : ℚ) : List Action :=
  (st.known_names.map fun name =>
      Action.pub (Pub.meta name (ageOf (st.last_packet_ts name) now) false)) ++
    [Action.closeSocket, Action.stopBus]

/-- Whether a tick carries a datagram that decodes successfully and whose
source address resolves to `name`. -/
def decodesTo (addr_to_name : List (String × String)) (name : String)
    (tk : Tick) : Bool :=
  match tk.ev with
  | .recv data ip =>
    (parse_packet data).isSome && (get_name_by_ip ip addr_to_name == name)
  | .timeout => false

/-- Recogniser for a discovery publication for `name`. -/
def isDisc (name : String) : Pub → Bool
  | .discovery n => n == name
  | _ => false

/-- Recogniser for a state (measurement) publication for `name`. -/
def isState (name : String) : Pub → Bool
  | .state n _ => n == name
  | _ => false

/-- Recogniser for either a discovery or a state publication for `name`. -/
def isRelevant (name : String) (p : Pub) : Bool :=
  isDisc name p || isState name p

/-- Recogniser for a shutdown action that is a liveness publication
for `name`. -/
def isMetaFor (name : String) : Action → Bool
  | .pub (.meta n _ _) => n == name
  | _ => false

/-- The 37-byte packet of end-to-end scenario A: zero header, then the seven
big-endian u16 values 10, 20, 150, 250, 800, 3800, 6000. -/
def packetA : List ℕ :=
  List.replicate 23 0 ++ [0, 10, 0, 20, 0, 150, 0, 250, 3, 32, 14, 216, 23, 112]

/-- Buffers failing the minimum-length guard are rejected. -/
lemma parse_packet_of_short {data : List ℕ} (h : data.length < 37) :
    parse_packet data = none := by
  unfold parse_packet
  rw [if_pos (by omega)]

/-- A big-endian u16 read recombines the two encoding bytes. -/
lemma u16be_of_bytes {data : List ℕ} {off x : ℕ}
    (hh : data.getD off 0 = x / 256) (hl : data.getD (off + 1) 0 = x % 256) :
    u16be data off = x := by
  unfold u16be
  rw [hh, hl]
  omega

example : parse_packet (List.replicate 10 0) = none := by decide

example :
    parse_packet packetA =
      some { pm25 := 10, pm10 := 20, hcho := 3/2, tvoc := 5/2, co2 := 800,
             temperature := 3, humidity := 60 } := by
  have e23 : u16be packetA 23 = 10 := by decide
  have e25 : u16be packetA 25 = 20 := by decide
  have e27 : u16be packetA 27 = 150 := by decide
  have e29 : u16be packetA 29 = 250 := by decide
  have e31 : u16be packetA 31 = 800 := by decide
  have e33 : u16be packetA 33 = 3800 := by decide
  have e35 : u16be packetA 35 = 6000 := by decide
  have hlen : ¬ packetA.length < 23 + 14 := by decide
  unfold parse_packet
  rw [if_neg hlen, e23, e25, e27, e29, e31, e33, e35]
  norm_num [Measurement.mk.injEq]

example : truncToZero (-3/2) = -1 := by norm_num [truncToZero]
example : evaluate (some 4) (5/2) 10 = (-1, true) := by
  norm_num [evaluate, ageOf, truncToZero]
example : evaluate none 5 10 = (999999, false) := by decide
example : evaluate (some 0) 5 10 = (999999, false) := by decide
example : evaluate (some 2) 5 10 = (3, true) := by
  norm_num [evaluate, ageOf, truncToZero]

/-- C1: for every byte buffer of length at least 37 whose bytes at offsets
23..36 encode seven unsigned 16-bit big-endian integers x0..x6, `parse_packet`
returns a complete Measurement with pm25 = x0, pm10 = x1, hcho = x2/100,
tvoc = x3/100, co2 = x4, temperature = (x5 − 3500)/100, humidity = x6/100,
with exact equality for the integer fields and exact rational equality for
the scaled fields. -/
theorem decode_fixed_layout (data : List ℕ) (x0 x1 x2 x3 x4 x5 x6 : ℕ)
    (hlen : 37 ≤ data.length)
    (hb0 : x0 < 65536) (hb1 : x1 < 65536) (hb2 : x2 < 65536)
    (hb3 : x3 < 65536) (hb4 : x4 < 65536) (hb5 : x5 < 65536) (hb6 : x6 < 65536)
    (h0 : data.getD 23 0 = x0 / 256 ∧ data.getD 24 0 = x0 % 256)
    (h1 : data.getD 25 0 = x1 / 256 ∧ data.getD 26 0 = x1 % 256)
    (h2 : data.getD 27 0 = x2 / 256 ∧ data.getD 28 0 = x2 % 256)
    (h3 : data.getD 29 0 = x3 / 256 ∧ data.getD 30 0 = x3 % 256)
    (h4 : data.getD 31 0 = x4 / 256 ∧ data.getD 32 0 = x4 % 256)
    (h5 : data.getD 33 0 = x5 / 256 ∧ data.getD 34 0 = x5 % 256)
    (h6 : data.getD 35 0 = x6 / 256 ∧ data.getD 36 0 = x6 % 256) :
    parse_packet data =
      some { pm25 := x0, pm10 := x1, hcho := (x2 : ℚ) / 100,
             tvoc := (x3 : ℚ) / 100, co2 := x4,
             temperature := ((x5 : ℚ) - 3500) / 100,
             humidity := (x6 : ℚ) / 100 } := by
  unfold parse_packet
  rw [if_neg (by omega), u16be_of_bytes h0.1 h0.2, u16be_of_bytes h1.1 h1.2,
    u16be_of_bytes h2.1 h2.2, u16be_of_bytes h3.1 h3.2,
    u16be_of_bytes h4.1 h4.2, u16be_of_bytes h5.1 h5.2,
    u16be_of_bytes h6.1 h6.2]

/-- C1 witness: the 37-byte scenario-A buffer carrying 10, 20, 150, 250, 800,
3800, 6000 decodes to {pm25 10, pm10 20, hcho 1.5, tvoc 2.5, co2 800,
temperature 3.0, humidity 60.0}. -/
theorem decode_fixed_layout_witness :
    37 ≤ packetA.length ∧
    parse_packet packetA =
      some { pm25 := 10, pm10 := 20, hcho := 3/2, tvoc := 5/2, co2 := 800,
             temperature := 3, humidity := 60 } :=
  ⟨by decide,
   (decode_fixed_layout packetA 10 20 150 250 800 3800 6000 (by decide)
      (by decide) (by decide) (by decide) (by decide) (by decide) (by decide)
      (by decide) (by decide) (by decide) (by decide) (by decide) (by decide)
      (by decide) (by decide)).trans
     (by norm_num [Measurement.mk.injEq])⟩

/-- C3: every byte buffer shorter than 37 bytes (23-byte header region plus
the 14-byte payload) is rejected: `parse_packet` returns `none`, never a
partial Measurement; being a total function it raises no fault. -/
theorem decode_short_rejected (data : List ℕ) (h : data.length < 37) :
    parse_packet data = none :=
  parse_packet_of_short h

/-- C3 witness: a 10-byte buffer is rejected. -/
theorem decode_short_rejected_witness :
    (List.replicate 10 0).length < 37 ∧
    parse_packet (List.replicate 10 0) = none :=
  ⟨by decide, decode_short_rejected _ (by decide)⟩

/-- C9: every byte buffer of length at least 37 decodes successfully,
regardless of the content of the header bytes or of trailing bytes beyond
offset 36 — length is the only rejection criterion. -/
theorem decode_long_succeeds (data : List ℕ) (h : 37 ≤ data.length) :
    (parse_packet data).isSome = true := by
  unfold parse_packet
  rw [if_neg (by omega)]
  rfl

/-- C9 witness: a 40-byte buffer of 0xFF bytes decodes successfully. -/
theorem decode_long_succeeds_witness :
    37 ≤ (List.replicate 40 255).length ∧
    (parse_packet (List.replicate 40 255)).isSome = true :=
  ⟨by decide, decode_long_succeeds _ (by decide)⟩

lemma truncToZero_intCast (z : ℤ) : truncToZero (z : ℚ) = z := by
  unfold truncToZero
  split
  · rw [← Int.cast_neg, Int.floor_intCast, neg_neg]
  · exact Int.floor_intCast z

lemma truncToZero_mono {q r : ℚ} (h : q ≤ r) : truncToZero q ≤ truncToZero r := by
  unfold truncToZero
  by_cases hq : q < 0 <;> by_cases hr : r < 0
  · rw [if_pos hq, if_pos hr]
    exact neg_le_neg (Int.floor_mono (by linarith))
  · rw [if_pos hq, if_neg hr]
    have h1 : (0 : ℤ) ≤ ⌊-q⌋ := Int.floor_nonneg.mpr (by linarith)
    have h2 : (0 : ℤ) ≤ ⌊r⌋ := Int.floor_nonneg.mpr (by linarith)
    omega
  · exact absurd (lt_of_le_of_lt h hr) hq
  · rw [if_neg hq, if_neg hr]
    exact Int.floor_mono h

lemma truncToZero_eq_floor {q : ℚ} (h : 0 ≤ q) : truncToZero q = ⌊q⌋ := by
  unfold truncToZero
  rw [if_neg (not_lt.mpr h)]

lemma evaluate_absent (now : ℚ) (t : ℤ) : evaluate none now t = (999999, false) := by
  simp [evaluate, ageOf]

lemma evaluate_zero (now : ℚ) (t : ℤ) :
    evaluate (some 0) now t = (999999, false) := by
  simp [evaluate, ageOf]

lemma evaluate_present {ts : ℚ} (h : ts ≠ 0) (now : ℚ) (t : ℤ) :
    evaluate (some ts) now t =
      (truncToZero (now - ts), decide (truncToZero (now - ts) ≤ t)) := by
  simp [evaluate, ageOf, h]

/-- C2 counterexample: at `lastSeenAt = 4`, `now = 5/2` the computed age is
−1, not the clamped-to-zero `max 0 ⌊now − lastSeenAt⌋ = 0` the claim
specifies; and at a present `lastSeenAt = 0.0` the code yields the sentinel
`(999999, false)`, not `(⌊now − lastSeenAt⌋, true)`. -/
theorem evaluate_contract_counterexample :
    (evaluate (some 4) (5/2) 10).1 = -1 ∧
    (evaluate (some 4) (5/2) 10).1 ≠ max 0 ⌊(5/2 : ℚ) - 4⌋ ∧
    evaluate (some 0) 5 10 ≠ (⌊(5 : ℚ) - 0⌋, true) := by
  refine ⟨?_, ?_, ?_⟩ <;>
    norm_num [evaluate, ageOf, truncToZero, Prod.ext_iff]

/-- C2 (amended): if `lastSeenAt` is absent — or present but exactly 0.0,
which the code's falsiness test conflates with absence — the result is
`(999999, false)`; otherwise `ageSeconds` is `now − lastSeenAt` truncated
toward zero (equal to `⌊now − lastSeenAt⌋` whenever the difference is
non-negative; a negative difference is truncated, not clamped to zero), and
`online = (ageSeconds ≤ onlineTimeoutSeconds)`. -/
theorem evaluate_contract (last : Option ℚ) (now : ℚ) (t : ℤ) :
    (last = none ∨ last = some 0 → evaluate last now t = (999999, false)) ∧
    (∀ ts : ℚ, last = some ts → ts ≠ 0 →
      (evaluate last now t).1 = truncToZero (now - ts) ∧
      (ts ≤ now → (evaluate last now t).1 = ⌊now - ts⌋) ∧
      ((evaluate last now t).2 = true ↔ (evaluate last now t).1 ≤ t)) := by
  constructor
  · rintro (rfl | rfl)
    · exact evaluate_absent now t
    · exact evaluate_zero now t
  · rintro ts rfl hts
    rw [evaluate_present hts]
    refine ⟨rfl, fun hle => truncToZero_eq_floor (by linarith), by simp⟩

/-- C2 witness: absent ⇒ sentinel; for `lastSeenAt = 2`, `now = 5` the age is
the floor of the difference and online is the threshold comparison. -/
theorem evaluate_contract_witness :
    evaluate none 5 10 = (999999, false) ∧
    (evaluate (some 2) 5 10).1 = ⌊(5 : ℚ) - 2⌋ ∧
    ((evaluate (some 2) 5 10).2 = true ↔ (evaluate (some 2) 5 10).1 ≤ 10) :=
  ⟨(evaluate_contract none 5 10).1 (Or.inl rfl),
   ((evaluate_contract (some 2) 5 10).2 2 rfl (by norm_num)).2.1 (by norm_num),
   ((evaluate_contract (some 2) 5 10).2 2 rfl (by norm_num)).2.2⟩

/-- C6: for fixed `lastSeenAt` and timeout, the liveness evaluation is
monotonic in `now`: the age never decreases, `online` flips from true to
false at most once (it is antitone), and — for a present, non-zero
`lastSeenAt`, the case in which the age actually crosses the threshold —
the boundary `ageSeconds = onlineTimeoutSeconds` yields `online = true`,
with the crossing realised exactly once: online one instant at the
threshold, offline one second past it. -/
theorem evaluate_monotone (last : Option ℚ) (t : ℤ) :
    (∀ n1 n2 : ℚ, n1 ≤ n2 → (evaluate last n1 t).1 ≤ (evaluate last n2 t).1) ∧
    (∀ n1 n2 : ℚ, n1 ≤ n2 → (evaluate last n2 t).2 = true →
      (evaluate last n1 t).2 = true) ∧
    (∀ ts : ℚ, last = some ts → ts ≠ 0 →
      (∀ n : ℚ, (evaluate last n t).1 = t → (evaluate last n t).2 = true) ∧
      (evaluate last (ts + (t : ℚ)) t).2 = true ∧
      (evaluate last (ts + (t : ℚ) + 1) t).2 = false) := by
  have hage : ∀ n1 n2 : ℚ, n1 ≤ n2 →
      (evaluate last n1 t).1 ≤ (evaluate last n2 t).1 := by
    intro n1 n2 h
    match last with
    | none => simp [evaluate_absent]
    | some ts =>
      by_cases hts : ts = 0
      · subst hts; simp [evaluate_zero]
      · rw [evaluate_present hts, evaluate_present hts]
        exact truncToZero_mono (by linarith)
  refine ⟨hage, ?_, ?_⟩
  · intro n1 n2 h honl
    match last with
    | none => rw [evaluate_absent] at honl; exact absurd honl (by simp)
    | some ts =>
      by_cases hts : ts = 0
      · subst hts; rw [evaluate_zero] at honl; exact absurd honl (by simp)
      · rw [evaluate_present hts] at honl ⊢
        have h2 : truncToZero (n2 - ts) ≤ t := by simpa using honl
        have h1 := truncToZero_mono (show n1 - ts ≤ n2 - ts by linarith)
        simpa using le_trans h1 h2
  · rintro ts rfl hts
    refine ⟨?_, ?_, ?_⟩
    · intro n hn
      rw [evaluate_present hts] at hn ⊢
      simp only [hn]
      simpa using le_of_eq hn
    · rw [evaluate_present hts, add_sub_cancel_left, truncToZero_intCast]
      simp
    · rw [evaluate_present hts]
      have : ts + (t : ℚ) + 1 - ts = ((t + 1 : ℤ) : ℚ) := by push_cast; ring
      rw [this, truncToZero_intCast]
      simp

/-- C6 witness: with `lastSeenAt = 3`, timeout 10, the age at `now = 4` is at
most the age at `now = 6`, online holds at the boundary `now = 3 + 10`, and
fails one second later. -/
theorem evaluate_monotone_witness :
    (evaluate (some 3) 4 10).1 ≤ (evaluate (some 3) 6 10).1 ∧
    (evaluate (some 3) (3 + ((10 : ℤ) : ℚ)) 10).2 = true ∧
    (evaluate (some 3) (3 + ((10 : ℤ) : ℚ) + 1) 10).2 = false :=
  ⟨(evaluate_monotone (some 3) 10).1 4 6 (by norm_num),
   ((evaluate_monotone (some 3) 10).2.2 3 rfl (by norm_num)).2.1,
   ((evaluate_monotone (some 3) 10).2.2 3 rfl (by norm_num)).2.2⟩

/-- C10: during a liveness sweep, a known device name with no recorded
last-seen timestamp — and equally one whose recorded timestamp is exactly
0.0, since the code tests the timestamp for falsiness — is published with
age exactly 999999 and `online = false`. -/
theorem sweep_sentinel_for_unseen (st : BridgeState) (t : ℤ) (now : ℚ)
    (name : String) (hm : name ∈ st.known_names)
    (h : st.last_packet_ts name = none ∨ st.last_packet_ts name = some 0) :
    Pub.meta name 999999 false ∈ sweep st t now := by
  have hf : meta_for st.last_packet_ts t now name = Pub.meta name 999999 false := by
    rcases h with h | h <;> simp [meta_for, h, evaluate_absent, evaluate_zero]
  exact hf ▸ List.mem_map_of_mem _ hm

/-- C10 witness: a known name with no recorded timestamp is swept with the
sentinel age and offline. -/
theorem sweep_sentinel_for_unseen_witness :
    Pub.meta "dev" 999999 false ∈
      sweep { known_names := ["dev"], last_packet_ts := fun _ => none,
              next_meta_ts := 0 } 10 5 :=
  sweep_sentinel_for_unseen _ 10 5 "dev" (by simp) (Or.inl rfl)

/-- C7: the first `recordPacket` call for a name reports the session as newly
created, every subsequent call for the same name reports it as not newly
created (membership in `known_names` persists across any later calls), and
the call sets that name's last-seen timestamp to the supplied time. -/
theorem recordPacket_contract (st : BridgeState) (name : String) (now now' : ℚ)
    (h : name ∉ st.known_names) :
    (recordPacket st name now).1 = true ∧
    (recordPacket st name now).2.last_packet_ts name = some now ∧
    (recordPacket (recordPacket st name now).2 name now').1 = false ∧
    (∀ st' : BridgeState, name ∈ st'.known_names →
      (recordPacket st' name now').1 = false) ∧
    (∀ (st' : BridgeState) (n2 : String) (t2 : ℚ), name ∈ st'.known_names →
      name ∈ (recordPacket st' n2 t2).2.known_names) := by
  refine ⟨by simp [recordPacket, h], by simp [recordPacket], ?_, ?_, ?_⟩
  · simp [recordPacket, h]
  · intro st' hm
    simp [recordPacket, hm]
  · intro st' n2 t2 hm
    by_cases hn : n2 ∈ st'.known_names <;> simp [recordPacket, hn, hm]

/-- C7 witness: from the initial state, recording a packet for `"dev"`
reports new, sets the timestamp, and a second record reports not-new. -/
theorem recordPacket_contract_witness :
    "dev" ∉ (initState 0 2).known_names ∧
    (recordPacket (initState 0 2) "dev" 5).1 = true ∧
    (recordPacket (initState 0 2) "dev" 5).2.last_packet_ts "dev" = some 5 ∧
    (recordPacket (recordPacket (initState 0 2) "dev" 5).2 "dev" 7).1 = false := by
  have h := recordPacket_contract (initState 0 2) "dev" 5 7 (by simp [initState])
  exact ⟨by simp [initState], h.1, h.2.1, h.2.2.1⟩

/-- C8: a datagram shorter than the minimum length leaves the bridge state
unchanged and publishes nothing; a loop iteration receiving it is
indistinguishable from one that timed out. -/
theorem short_packet_no_effect (A : List (String × String)) (st : BridgeState)
    (data : List ℕ) (ip : String) (now : ℚ) (h : data.length < 37) :
    ingest A st data ip now = (st, []) ∧
    ∀ (e : ℚ) (t : ℤ),
      step A e t st ⟨now, NetEvent.recv data ip⟩ =
        step A e t st ⟨now, NetEvent.timeout⟩ := by
  have hp : parse_packet data = none := parse_packet_of_short h
  have hi : ingest A st data ip now = (st, []) := by simp [ingest, hp]
  exact ⟨hi, fun e t => by simp [step, hi]⟩

/-- C8 witness: a 10-byte datagram from an unmapped address changes nothing
and produces no publication. -/
theorem short_packet_no_effect_witness :
    (List.replicate 10 0).length < 37 ∧
    ingest [] (initState 0 2) (List.replicate 10 0) "10.0.0.9" 1 =
      (initState 0 2, []) := by
  have h := short_packet_no_effect [] (initState 0 2) (List.replicate 10 0)
    "10.0.0.9" 1 (by decide)
  exact ⟨by decide, h.1⟩

/-- C5: when the shutdown sequence runs, every known device receives exactly
one final liveness publication with `online = false` regardless of its
last-seen age, and all these publications precede the release of the network
socket and of the bus connection (which happen last, in that order). -/
theorem shutdown_offline_once (st : BridgeState) (now : ℚ) (name : String)
    (hnd : st.known_names.Nodup) (hm : name ∈ st.known_names) :
    ∃ pubs : List Action,
      shutdown st now = pubs ++ [Action.closeSocket, Action.stopBus] ∧
      pubs.countP (isMetaFor name) = 1 ∧
      ∀ a ∈ pubs, isMetaFor name a = true →
        a = Action.pub
          (Pub.meta name (ageOf (st.last_packet_ts name) now) false) := by
  refine ⟨st.known_names.map fun n =>
    Action.pub (Pub.meta n (ageOf (st.last_packet_ts n) now) false),
    rfl, ?_, ?_⟩
  · rw [List.countP_map]
    have hc : ((isMetaFor name) ∘ fun n =>
        Action.pub (Pub.meta n (ageOf (st.last_packet_ts n) now) false)) =
        fun n => n == name := rfl
    rw [hc]
    have := List.count_eq_one_of_mem hnd hm
    rwa [List.count] at this
  · intro a ha hmeta
    rcases List.mem_map.mp ha with ⟨n, _, rfl⟩
    have hn : n = name := by
      have : (n == name) = true := hmeta
      simpa using this
    subst hn
    rfl

/-- C5 witness: with two known devices last seen at time 5, shutting down at
time 9 publishes exactly one offline liveness message for `"a"`, before the
socket close and the bus stop. -/
theorem shutdown_offline_once_witness :
    ∃ pubs : List Action,
      shutdown { known_names := ["a", "b"], last_packet_ts := fun _ => some 5,
                 next_meta_ts := 0 } 9 =
          pubs ++ [Action.closeSocket, Action.stopBus] ∧
      pubs.countP (isMetaFor "a") = 1 ∧
      ∀ a ∈ pubs, isMetaFor "a" a = true →
        a = Action.pub (Pub.meta "a" (ageOf (some 5) 9) false) :=
  shutdown_offline_once
    { known_names := ["a", "b"], last_packet_ts := fun _ => some 5,
      next_meta_ts := 0 } 9 "a" (by decide) (by decide)

lemma run_nil (A : List (String × String)) (e : ℚ) (t : ℤ) (st : BridgeState) :
    run A e t st [] = (st, []) := rfl

lemma run_cons (A : List (String × String)) (e : ℚ) (t : ℤ) (st : BridgeState)
    (tk : Tick) (tks : List Tick) :
    run A e t st (tk :: tks) =
      ((run A e t (step A e t st tk).1 tks).1,
       (step A e t st tk).2 ++ (run A e t (step A e t st tk).1 tks).2) := rfl

lemma sweep_irrelevant (name : String) (st : BridgeState) (t : ℤ) (now : ℚ) :
    ∀ p ∈ sweep st t now, isDisc name p = false ∧ isState name p = false := by
  intro p hp
  rcases List.mem_map.mp hp with ⟨n, _, rfl⟩
  exact ⟨rfl, rfl⟩

lemma ingest_reject {A : List (String × String)} {st : BridgeState}
    {data : List ℕ} {ip : String} {now : ℚ} (hp : parse_packet data = none) :
    ingest A st data ip now = (st, []) := by
  simp [ingest, hp]

lemma ingest_accept_new {A : List (String × String)} {st : BridgeState}
    {data : List ℕ} {ip : String} {now : ℚ} {m : Measurement}
    (hp : parse_packet data = some m)
    (hn : get_name_by_ip ip A ∉ st.known_names) :
    ingest A st data ip now =
      ({ st with
         known_names := get_name_by_ip ip A :: st.known_names
         last_packet_ts := fun n =>
           if n = get_name_by_ip ip A then some now else st.last_packet_ts n },
       [Pub.discovery (get_name_by_ip ip A),
        Pub.state (get_name_by_ip ip A) m]) := by
  simp [ingest, hp, recordPacket, hn]

lemma ingest_accept_known {A : List (String × String)} {st : BridgeState}
    {data : List ℕ} {ip : String} {now : ℚ} {m : Measurement}
    (hp : parse_packet data = some m)
    (hk : get_name_by_ip ip A ∈ st.known_names) :
    ingest A st data ip now =
      ({ st with
         last_packet_ts := fun n =>
           if n = get_name_by_ip ip A then some now else st.last_packet_ts n },
       [Pub.state (get_name_by_ip ip A) m]) := by
  simp [ingest, hp, recordPacket, hk]

lemma ingest_known_names_mono {A : List (String × String)} {st : BridgeState}
    {data : List ℕ} {ip : String} {now : ℚ} {name : String}
    (h : name ∈ st.known_names) :
    name ∈ (ingest A st data ip now).1.known_names := by
  rcases hp : parse_packet data with _ | m
  · rw [ingest_reject hp]; exact h
  · by_cases hk : get_name_by_ip ip A ∈ st.known_names
    · rw [ingest_accept_known hp hk]; exact h
    · rw [ingest_accept_new hp hk]; exact List.mem_cons_of_mem _ h

lemma step_recv_decomp (A : List (String × String)) (e : ℚ) (t : ℤ)
    (st : BridgeState) (data : List ℕ) (ip : String) (now : ℚ) (name : String) :
    ∃ extra : List Pub,
      (step A e t st ⟨now, NetEvent.recv data ip⟩).2 =
        (ingest A st data ip now).2 ++ extra ∧
      (∀ p ∈ extra, isDisc name p = false ∧ isState name p = false) ∧
      (step A e t st ⟨now, NetEvent.recv data ip⟩).1.known_names =
        (ingest A st data ip now).1.known_names := by
  by_cases hif : st.next_meta_ts ≤ now
  · exact ⟨sweep (ingest A st data ip now).1 t now, by simp [step, hif],
      sweep_irrelevant name _ t now, by simp [step, hif]⟩
  · exact ⟨[], by simp [step, hif], by simp, by simp [step, hif]⟩

lemma step_timeout_decomp (A : List (String × String)) (e : ℚ) (t : ℤ)
    (st : BridgeState) (now : ℚ) (name : String) :
    (∀ p ∈ (step A e t st ⟨now, NetEvent.timeout⟩).2,
      isDisc name p = false ∧ isState name p = false) ∧
    (step A e t st ⟨now, NetEvent.timeout⟩).1.known_names = st.known_names := by
  by_cases hif : st.next_meta_ts ≤ now
  · constructor
    · intro p hp
      have hps : (step A e t st ⟨now, NetEvent.timeout⟩).2 = sweep st t now := by
        simp [step, hif]
      rw [hps] at hp
      exact sweep_irrelevant name st t now p hp
    · simp [step, hif]
  · constructor
    · intro p hp
      have hps : (step A e t st ⟨now, NetEvent.timeout⟩).2 = [] := by
        simp [step, hif]
      rw [hps] at hp
      exact absurd hp (List.not_mem_nil p)
    · simp [step, hif]

lemma step_no_disc_of_known (A : List (String × String)) (e : ℚ) (t : ℤ)
    (st : BridgeState) (tk : Tick) (name : String)
    (hk : name ∈ st.known_names) :
    (∀ p ∈ (step A e t st tk).2, isDisc name p = false) ∧
    name ∈ (step A e t st tk).1.known_names := by
  obtain ⟨now, ev⟩ := tk
  cases ev with
  | timeout =>
    obtain ⟨h1, h2⟩ := step_timeout_decomp A e t st now name
    exact ⟨fun p hp => (h1 p hp).1, h2 ▸ hk⟩
  | recv data ip =>
    obtain ⟨extra, hps, hex, hkn⟩ := step_recv_decomp A e t st data ip now name
    constructor
    · intro p hp
      rw [hps] at hp
      rcases List.mem_append.mp hp with hp | hp
      · rcases hq : parse_packet data with _ | m
        · rw [ingest_reject hq] at hp
          exact absurd hp (List.not_mem_nil p)
        · by_cases hk2 : get_name_by_ip ip A ∈ st.known_names
          · rw [ingest_accept_known hq hk2] at hp
            simp only [List.mem_singleton] at hp
            subst hp
            rfl
          · rw [ingest_accept_new hq hk2] at hp
            have hne : get_name_by_ip ip A ≠ name := fun hc => hk2 (hc ▸ hk)
            simp only [List.mem_cons, List.not_mem_nil, or_false] at hp
            rcases hp with rfl | rfl
            · simp [isDisc, hne]
            · rfl
      · exact (hex p hp).1
    · rw [hkn]
      exact ingest_known_names_mono hk

lemma run_no_disc_of_known (A : List (String × String)) (e : ℚ) (t : ℤ)
    (name : String) :
    ∀ (ticks : List Tick) (st : BridgeState), name ∈ st.known_names →
      (run A e t st ticks).2.countP (isDisc name) = 0 ∧
      name ∈ (run A e t st ticks).1.known_names := by
  intro ticks
  induction ticks with
  | nil => exact fun st h => ⟨rfl, h⟩
  | cons tk tks ih =>
    intro st h
    obtain ⟨hs1, hs2⟩ := step_no_disc_of_known A e t st tk name h
    obtain ⟨hr1, hr2⟩ := ih _ hs2
    rw [run_cons]
    refine ⟨?_, hr2⟩
    rw [List.countP_append, hr1, List.countP_eq_zero.mpr ?_]
    · intro p hp
      simp [hs1 p hp]

lemma step_irrelevant_of_no_decode (A : List (String × String)) (e : ℚ)
    (t : ℤ) (st : BridgeState) (tk : Tick) (name : String)
    (hdec : decodesTo A name tk = false) :
    (∀ p ∈ (step A e t st tk).2, isDisc name p = false ∧ isState name p = false) ∧
    ((name ∈ (step A e t st tk).1.known_names) ↔ name ∈ st.known_names) := by
  obtain ⟨now, ev⟩ := tk
  cases ev with
  | timeout =>
    obtain ⟨h1, h2⟩ := step_timeout_decomp A e t st now name
    exact ⟨h1, by rw [h2]⟩
  | recv data ip =>
    obtain ⟨extra, hps, hex, hkn⟩ := step_recv_decomp A e t st data ip now name
    rcases hq : parse_packet data with _ | m
    · rw [ingest_reject hq] at hps hkn
      rw [hps, hkn]
      exact ⟨fun p hp => hex p (by simpa using hp), Iff.rfl⟩
    · have hne : get_name_by_ip ip A ≠ name := by
        intro hc
        simp [decodesTo, hq, hc] at hdec
      by_cases hk2 : get_name_by_ip ip A ∈ st.known_names
      · rw [ingest_accept_known hq hk2] at hps hkn
        rw [hps, hkn]
        constructor
        · intro p hp
          rcases List.mem_append.mp hp with hp | hp
          · simp only [List.mem_singleton] at hp
            subst hp
            exact ⟨rfl, by simp [isState, hne]⟩
          · exact hex p hp
        · exact Iff.rfl
      · rw [ingest_accept_new hq hk2] at hps hkn
        rw [hps, hkn]
        constructor
        · intro p hp
          rcases List.mem_append.mp hp with hp | hp
          · simp only [List.mem_cons, List.not_mem_nil, or_false] at hp
            rcases hp with rfl | rfl
            · exact ⟨by simp [isDisc, hne], rfl⟩
            · exact ⟨rfl, by simp [isState, hne]⟩
          · exact hex p hp
        · simp [List.mem_cons, Ne.symm hne]

lemma run_discovery_spec (A : List (String × String)) (e : ℚ) (t : ℤ)
    (name : String) :
    ∀ (ticks : List Tick) (st : BridgeState), name ∉ st.known_names →
      ((run A e t st ticks).2.countP (isDisc name) =
        if ticks.any (decodesTo A name) then 1 else 0) ∧
      (((run A e t st ticks).2.find? (isRelevant name)).getD
          (Pub.discovery name) = Pub.discovery name) := by
  intro ticks
  induction ticks with
  | nil => exact fun st _ => ⟨rfl, rfl⟩
  | cons tk tks ih =>
    intro st h
    rw [run_cons, List.any_cons]
    by_cases hdec : decodesTo A name tk = true
    · obtain ⟨now, ev⟩ := tk
      cases ev with
      | timeout => exact absurd hdec (by simp [decodesTo])
      | recv data ip =>
        have hB : (parse_packet data).isSome = true ∧
            (get_name_by_ip ip A == name) = true := by
          simpa [decodesTo] using hdec
        obtain ⟨m, hm⟩ := Option.isSome_iff_exists.mp hB.1
        have hip : get_name_by_ip ip A = name := by simpa using hB.2
        obtain ⟨extra, hps, hex, hkn⟩ := step_recv_decomp A e t st data ip now name
        have hn' : get_name_by_ip ip A ∉ st.known_names := by
          rw [hip]; exact h
        rw [ingest_accept_new hm hn'] at hps hkn
        rw [hip] at hps hkn
        have hmem : name ∈
            (step A e t st ⟨now, NetEvent.recv data ip⟩).1.known_names := by
          rw [hkn]; exact List.mem_cons_self _ _
        obtain ⟨hr0, hrmem⟩ := run_no_disc_of_known A e t name tks _ hmem
        have hrel : isRelevant name (Pub.discovery name) = true := by
          simp [isRelevant, isDisc]
        constructor
        · rw [hps, List.countP_append, List.countP_append, hr0]
          have h1 : [Pub.discovery name, Pub.state name m].countP
              (isDisc name) = 1 := by
            simp [List.countP_cons, isDisc]
          have h2 : extra.countP (isDisc name) = 0 :=
            List.countP_eq_zero.mpr fun p hp => by simp [(hex p hp).1]
          rw [h1, h2]
          simp [hdec]
        · rw [hps]
          simp only [List.append_assoc, List.cons_append, List.nil_append]
          rw [List.find?_cons_of_pos _ hrel]
          rfl
    · have hdecf : decodesTo A name tk = false := by simpa using hdec
      obtain ⟨hs1, hs2⟩ := step_irrelevant_of_no_decode A e t st tk name hdecf
      have hn1 : name ∉ (step A e t st tk).1.known_names := fun hc =>
        h (hs2.mp hc)
      obtain ⟨ih1, ih2⟩ := ih _ hn1
      constructor
      · rw [List.countP_append, ih1,
          List.countP_eq_zero.mpr fun p hp => by simp [(hs1 p hp).1]]
        simp [hdecf]
      · rw [List.find?_append,
          List.find?_eq_none.mpr fun p hp => by
            simp [isRelevant, (hs1 p hp).1, (hs1 p hp).2]]
        simpa using ih2

/-- C4: starting from the initial bridge state, for every device name the
loop publishes discovery metadata exactly once — exactly when some tick of
the trace carries a successfully decoded packet attributed to that name —
and the first discovery-or-state publication for that name in the output is
the discovery, so discovery precedes the name's first measurement
publication; subsequent successful decodes add no further discovery. -/
theorem discovery_once_before_state (A : List (String × String)) (e : ℚ)
    (t : ℤ) (t0 : ℚ) (name : String) (ticks : List Tick) :
    ((run A e t (initState t0 e) ticks).2.countP (isDisc name) =
      if ticks.any (decodesTo A name) then 1 else 0) ∧
    (((run A e t (initState t0 e) ticks).2.find? (isRelevant name)).getD
        (Pub.discovery name) = Pub.discovery name) :=
  run_discovery_spec A e t name ticks (initState t0 e) (List.not_mem_nil name)

end AirMaster
